import Mathlib

/-!
Verification of the Civ5 mod conflict detector (`conflicts.py`).

The development shallowly embeds the Python module: file paths become lists
of components, Python sets of `LuaFile` become deduplicated Lean lists (one
possible iteration order of the set), the `defaultdict(list)` duplimap
becomes an insertion-ordered association list, and the fallible directory
enumeration returns `Except`.
-/

set_option maxHeartbeats 1000000

namespace Civ5

/-- A filesystem path, modelled as its list of components. -/
structure Path where
  components : List String
deriving DecidableEq, Repr

/-- The final path component (`pathlib.Path.name`). -/
def Path.name (p : Path) : String := p.components.getLastD ""

/-- Index of the last occurrence of `'.'` in a character list (`str.rfind`). -/
def lastDotIdx (cs : List Char) : Option Nat :=
  ((List.range cs.length).filter (fun i => cs.getD i ' ' == '.')).getLast?

/-- The extension of a file name, following `pathlib`: the part of the name
from its last dot (inclusive), provided that dot is neither the first nor the
last character; otherwise the empty string. -/
def nameSuffix (name : String) : String :=
  let cs := name.toList
  match lastDotIdx cs with
  | none => ""
  | some i => if 0 < i && i + 1 < cs.length then String.mk (cs.drop i) else ""

/-- Model of `pathlib.Path.suffix`. -/
def Path.suffix (p : Path) : String := nameSuffix p.name

/-- Model of `pathlib.Path.stem`: the final component without its extension. -/
def Path.stem (p : Path) : String :=
  let cs := p.name.toList
  match lastDotIdx cs with
  | none => p.name
  | some i => if 0 < i && i + 1 < cs.length then String.mk (cs.take i) else p.name

/-- Rendering of a path as text (used in error messages). -/
def Path.render (p : Path) : String := String.intercalate "/" p.components

/-- Model of `str.lower()`: lower-case a string character by character. -/
def strToLower (s : String) : String := String.mk (s.toList.map Char.toLower)

/-- The fixed ordered list of Vox Populi (baseline) mod names (`VP_MODNAMES`). -/
def VP_MODNAMES : List String := [
  "(1) Community Patch",
  "(2) Community Balance Overhaul",
  "(3) CSD for CBP",
  "(4) Civ IV Diplomatic Features",
  "(5) More Luxuries",
  "(6a) Community Balance Overhaul - Compatibility Files (EUI)",
  "(6b) Community Balance Overhaul - Compatibility Files (No-EUI)",
  "(6c) 43 Civs CP",
  "(7a) Promotion Icons for VP",
  "(7b) UI - Promotion Tree for VP"
]

/-- The `LuaFile` dataclass: a script reference — path, owning mod name, baseline flag. -/
structure LuaFile where
  path : Path
  modname : String
  is_vp : Bool
deriving DecidableEq, Repr

/-- The `Mod` class: a mod, represented by its `.modinfo` file and its lua files. -/
structure Mod where
  modinfo_file : Path
  lua_files : List Path
deriving DecidableEq, Repr

/-- The name of a mod: the stem of its `.modinfo` file. -/
def Mod.name (m : Mod) : String := m.modinfo_file.stem

/-- Whether the first character list is an initial segment of the second. -/
def isHeadOf : List Char → List Char → Bool
  | [], _ => true
  | _ :: _, [] => false
  | a :: as, b :: bs => a == b && isHeadOf as bs

/-- Model of the Python `pat in text` test on strings: contiguous substring containment. -/
def containsSeq (pat text : List Char) : Bool :=
  (List.range (text.length + 1)).any (fun i => isHeadOf pat (text.drop i))

/-- The baseline classifier `is_voxpopuli`: the mod name contains one of `VP_MODNAMES` as a substring
(the baseline name is contained in the manifest-derived name, which usually
appends version info). -/
def is_voxpopuli (modname : String) : Bool :=
  VP_MODNAMES.any (fun vpname => containsSeq vpname.toList modname.toList)

/-- The comprehension `{LuaFile(file, mod.name, False) for mod in mods for file in mod.lua_files}`
before set deduplication. -/
def allLuas (mods : List Mod) : List LuaFile :=
  (mods.map (fun mod => mod.lua_files.map (fun file => LuaFile.mk file mod.name false))).flatten

/-- Model of `sort_out_luas`: split the lua files of the given mods into the VP ones
(re-flagged `is_vp := true`) and the non-VP ones.  Python sets are modelled
as deduplicated lists. -/
def sort_out_luas (mods : List Mod) : List LuaFile × List LuaFile :=
  let lua_files := (allLuas mods).dedup
  let vp_lua_files :=
    ((lua_files.filter (fun lf => is_voxpopuli lf.modname)).map
      (fun lf => LuaFile.mk lf.path lf.modname true)).dedup
  let not_vp_lua_files := lua_files.filter (fun lf => !is_voxpopuli lf.modname)
  (vp_lua_files, not_vp_lua_files)

/-- The `defaultdict(list)` mapping lua file names to lists of `LuaFile`s,
modelled as an insertion-ordered association list. -/
abbrev DupliMap := List (String × List LuaFile)

/-- Model of `duplimap.get(name)`: the list stored under a key, if the key is present. -/
def dmGet : DupliMap → String → Option (List LuaFile)
  | [], _ => none
  | kv :: rest, k => if kv.1 == k then some kv.2 else dmGet rest k

/-- Model of `duplimap[name].append(lua)` on a `defaultdict(list)`: append to the list
of an existing key, or create the key with a one-element list. -/
def dmAppend : DupliMap → String → LuaFile → DupliMap
  | [], k, lua => [(k, [lua])]
  | kv :: rest, k, lua =>
    if kv.1 == k then (kv.1, kv.2 ++ [lua]) :: rest
    else kv :: dmAppend rest k lua

/-- The list stored under a key, defaulting to the empty list. -/
def dmGroup (d : DupliMap) (k : String) : List LuaFile := (dmGet d k).getD []

/-- The keys of a duplimap. -/
def dmKeys (d : DupliMap) : List String := d.map (fun kv => kv.1)

/-- Model of `_add_lua`: add `lua` to the duplimap unless an entry with the same mod
name is already stored under `lua.path.name` (only one instance of a
particular lua name per mod is allowed). -/
def add_lua (duplimap : DupliMap) (lua : LuaFile) : DupliMap :=
  match dmGet duplimap lua.path.name with
  | none => dmAppend duplimap lua.path.name lua
  | some values =>
    if lua.modname ∈ values.map (fun v => v.modname) then duplimap
    else dmAppend duplimap lua.path.name lua

/-- The duplimap built inside `find_vp_conflicts`: all VP luas are appended
unconditionally, then the not-VP luas are added through `_add_lua`. -/
def vp_duplimap (vp_luas not_vp_luas : List LuaFile) : DupliMap :=
  not_vp_luas.foldl add_lua
    (vp_luas.foldl (fun d lua => dmAppend d lua.path.name lua) [])

/-- Model of `find_vp_conflicts`: keep the groups that contain a member of `vp_luas`
and have at least 3 members (VP luas overwritten by at least two other mods). -/
def find_vp_conflicts (vp_luas not_vp_luas : List LuaFile) : DupliMap :=
  (vp_duplimap vp_luas not_vp_luas).filter
    (fun kv => (kv.2.any (fun lf => decide (lf ∈ vp_luas))) && decide (3 ≤ kv.2.length))

/-- The duplimap built inside `find_not_vp_conflicts`: all not-VP luas added
through `_add_lua`. -/
def nvp_duplimap (not_vp_luas : List LuaFile) : DupliMap :=
  not_vp_luas.foldl add_lua []

/-- Model of `find_not_vp_conflicts`: keep the groups with at least 2 members (same
not-VP lua names coming from different mods). -/
def find_not_vp_conflicts (not_vp_luas : List LuaFile) : DupliMap :=
  (nvp_duplimap not_vp_luas).filter (fun kv => decide (2 ≤ kv.2.length))

/-- The lua files of a list bearing a given file name. -/
def filesNamed (l : List LuaFile) (k : String) : List LuaFile :=
  l.filter (fun lf => lf.path.name == k)

/-- Keep one lua file per mod name not already `seen`, scanning left to right:
the extensional content of repeated `_add_lua` calls on a single group. -/
def dedupByModname (seen : List String) : List LuaFile → List LuaFile
  | [] => []
  | lf :: rest =>
    if lf.modname ∈ seen then dedupByModname seen rest
    else lf :: dedupByModname (lf.modname :: seen) rest

/-- The group a key would have after the whole `find_vp_conflicts` build: the
VP files of that name (not deduplicated), followed by the not-VP files of that
name deduplicated by mod name against everything before them. -/
def groupSpec (vp nvp : List LuaFile) (k : String) : List LuaFile :=
  filesNamed vp k ++
    dedupByModname ((filesNamed vp k).map (fun lf => lf.modname)) (filesNamed nvp k)

theorem dmGet_dmAppend_self (d : DupliMap) (k : String) (lua : LuaFile) :
    dmGet (dmAppend d k lua) k = some (dmGroup d k ++ [lua]) := by
  induction d with
  | nil => simp [dmAppend, dmGet, dmGroup]
  | cons kv rest ih =>
    by_cases h : kv.1 = k
    · simp [dmAppend, dmGet, dmGroup, h]
    · have hb : (kv.1 == k) = false := beq_eq_false_iff_ne.2 h
      simp [dmAppend, dmGet, dmGroup, hb, ih]

theorem dmGet_dmAppend_ne (d : DupliMap) {k k' : String} (lua : LuaFile)
    (h : k' ≠ k) : dmGet (dmAppend d k lua) k' = dmGet d k' := by
  induction d with
  | nil => simp [dmAppend, dmGet, beq_eq_false_iff_ne.2 (Ne.symm h)]
  | cons kv rest ih =>
    by_cases hk : kv.1 = k
    · have hb : (kv.1 == k') = false := by
        apply beq_eq_false_iff_ne.2; rw [hk]; exact Ne.symm h
      simp [dmAppend, dmGet, hk, hb, beq_eq_false_iff_ne.2 (Ne.symm h)]
    · have hb : (kv.1 == k) = false := beq_eq_false_iff_ne.2 hk
      by_cases hk' : kv.1 = k'
      · simp [dmAppend, dmGet, hb, hk', h]
      · simp [dmAppend, dmGet, hb, beq_eq_false_iff_ne.2 hk', ih]

theorem dmGroup_dmAppend_self (d : DupliMap) (k : String) (lua : LuaFile) :
    dmGroup (dmAppend d k lua) k = dmGroup d k ++ [lua] := by
  simp [dmGroup, dmGet_dmAppend_self]

theorem dmGroup_dmAppend_ne (d : DupliMap) {k k' : String} (lua : LuaFile)
    (h : k' ≠ k) : dmGroup (dmAppend d k lua) k' = dmGroup d k' := by
  simp [dmGroup, dmGet_dmAppend_ne d lua h]

theorem dmGet_eq_none_iff (d : DupliMap) (k : String) :
    dmGet d k = none ↔ k ∉ dmKeys d := by
  induction d with
  | nil => simp [dmGet, dmKeys]
  | cons kv rest ih =>
    by_cases h : kv.1 = k
    · simp [dmGet, h, dmKeys]
    · have hb : (kv.1 == k) = false := beq_eq_false_iff_ne.2 h
      simp [dmGet, hb, dmKeys, ih, Ne.symm h]

theorem dmGroup_eq_of_dmGet (d : DupliMap) (k : String) {g : List LuaFile}
    (h : dmGet d k = some g) : dmGroup d k = g := by
  simp [dmGroup, h]

/-- Well-formedness of a duplimap: distinct keys and nonempty groups. -/
def WF (d : DupliMap) : Prop := (dmKeys d).Nodup ∧ ∀ kv ∈ d, kv.2 ≠ []

theorem dmKeys_dmAppend (d : DupliMap) (k : String) (lua : LuaFile) :
    dmKeys (dmAppend d k lua)
      = if k ∈ dmKeys d then dmKeys d else dmKeys d ++ [k] := by
  induction d with
  | nil => simp [dmAppend, dmKeys]
  | cons kv rest ih =>
    by_cases h : kv.1 = k
    · simp [dmAppend, dmKeys, h]
    · have hb : (kv.1 == k) = false := beq_eq_false_iff_ne.2 h
      have h1 : dmAppend (kv :: rest) k lua = kv :: dmAppend rest k lua := by
        simp [dmAppend, hb]
      have h2 : dmKeys (kv :: dmAppend rest k lua)
          = kv.1 :: dmKeys (dmAppend rest k lua) := rfl
      have h3 : dmKeys (kv :: rest) = kv.1 :: dmKeys rest := rfl
      rw [h1, h2, h3, ih]
      have hne : ¬(k = kv.1) := fun c => h c.symm
      by_cases hm : k ∈ dmKeys rest
      · rw [if_pos hm, if_pos (by simp [List.mem_cons, hm])]
      · rw [if_neg hm, if_neg (by simp [List.mem_cons, hne, hm])]
        rfl

theorem mem_dmAppend {d : DupliMap} {k : String} {lua : LuaFile} {kv}
    (h : kv ∈ dmAppend d k lua) : kv ∈ d ∨ ∃ vs, kv = (k, vs ++ [lua]) := by
  induction d with
  | nil =>
    simp only [dmAppend, List.mem_singleton] at h
    exact Or.inr ⟨[], by simpa using h⟩
  | cons kv' rest ih =>
    by_cases hk : kv'.1 = k
    · simp only [dmAppend, beq_iff_eq.2 hk, if_true, List.mem_cons] at h
      rcases h with h | h
      · exact Or.inr ⟨kv'.2, by rw [h, hk]⟩
      · exact Or.inl (List.mem_cons_of_mem _ h)
    · have hb : (kv'.1 == k) = false := beq_eq_false_iff_ne.2 hk
      simp only [dmAppend, hb, Bool.false_eq_true, if_false, List.mem_cons] at h
      rcases h with h | h
      · exact Or.inl (by simp [h])
      · rcases ih h with h' | h'
        · exact Or.inl (List.mem_cons_of_mem _ h')
        · exact Or.inr h'

theorem wf_dmAppend {d : DupliMap} (hWF : WF d) (k : String) (lua : LuaFile) :
    WF (dmAppend d k lua) := by
  constructor
  · rw [dmKeys_dmAppend]
    split
    · exact hWF.1
    · next hk => simp [List.nodup_append, hWF.1, hk]
  · intro kv h
    rcases mem_dmAppend h with h' | ⟨vs, rfl⟩
    · exact hWF.2 kv h'
    · simp

theorem dmGet_eq_some_iff {d : DupliMap} (hnd : (dmKeys d).Nodup) (k : String)
    (g : List LuaFile) : dmGet d k = some g ↔ (k, g) ∈ d := by
  induction d with
  | nil => simp [dmGet]
  | cons kv rest ih =>
    have hnd2 : (kv.1 :: dmKeys rest).Nodup := hnd
    have hnd' : (dmKeys rest).Nodup := (List.nodup_cons.1 hnd2).2
    have hk1 : kv.1 ∉ dmKeys rest := (List.nodup_cons.1 hnd2).1
    by_cases h : kv.1 = k
    · simp only [dmGet, beq_iff_eq.2 h, if_true, List.mem_cons, Option.some_inj]
      constructor
      · intro hg
        exact Or.inl (by rw [← h, ← hg])
      · intro hg
        rcases hg with hg | hg
        · rw [← hg]
        · exfalso
          apply hk1
          rw [h]
          simp only [dmKeys, List.mem_map]
          exact ⟨(k, g), hg, rfl⟩
    · have hb : (kv.1 == k) = false := beq_eq_false_iff_ne.2 h
      simp only [dmGet, hb, Bool.false_eq_true, if_false, List.mem_cons, ih hnd']
      constructor
      · exact fun hg => Or.inr hg
      · intro hg
        rcases hg with hg | hg
        · exact absurd (congrArg Prod.fst hg).symm h
        · exact hg

theorem dmGet_some_ne_nil {d : DupliMap} (hWF : WF d) {k : String}
    {g : List LuaFile} (hg : dmGet d k = some g) : g ≠ [] :=
  hWF.2 (k, g) ((dmGet_eq_some_iff hWF.1 _ _).1 hg)

theorem mem_dmKeys_iff (d : DupliMap) (k : String) :
    k ∈ dmKeys d ↔ ∃ g, (k, g) ∈ d := by
  simp only [dmKeys, List.mem_map]
  constructor
  · rintro ⟨⟨k', g⟩, hm, rfl⟩
    exact ⟨g, hm⟩
  · rintro ⟨g, hm⟩
    exact ⟨(k, g), hm, rfl⟩

theorem filesNamed_cons (lua : LuaFile) (rest : List LuaFile) (k : String) :
    filesNamed (lua :: rest) k
      = if lua.path.name = k then lua :: filesNamed rest k else filesNamed rest k := by
  by_cases h : lua.path.name = k
  · simp [filesNamed, List.filter_cons, h]
  · simp [filesNamed, List.filter_cons, h, beq_eq_false_iff_ne.2 h]

theorem dmGroup_foldl_appendName (l : List LuaFile) (d : DupliMap) (k : String) :
    dmGroup (l.foldl (fun d lua => dmAppend d lua.path.name lua) d) k
      = dmGroup d k ++ filesNamed l k := by
  induction l generalizing d with
  | nil => simp [filesNamed]
  | cons lua rest ih =>
    simp only [List.foldl_cons]
    rw [ih, filesNamed_cons]
    by_cases h : lua.path.name = k
    · rw [if_pos h, h, dmGroup_dmAppend_self]
      simp
    · rw [if_neg h, dmGroup_dmAppend_ne _ _ (Ne.symm h)]

theorem dedupByModname_congr (seen seen' : List String) (l : List LuaFile)
    (h : ∀ lf ∈ l, (lf.modname ∈ seen ↔ lf.modname ∈ seen')) :
    dedupByModname seen l = dedupByModname seen' l := by
  induction l generalizing seen seen' with
  | nil => rfl
  | cons lf rest ih =>
    by_cases hm : lf.modname ∈ seen
    · have hm' : lf.modname ∈ seen' := (h lf (List.mem_cons_self _ _)).1 hm
      simp only [dedupByModname, if_pos hm, if_pos hm']
      exact ih seen seen' fun lf' h' => h lf' (List.mem_cons_of_mem _ h')
    · have hm' : lf.modname ∉ seen' := fun c => hm ((h lf (List.mem_cons_self _ _)).2 c)
      simp only [dedupByModname, if_neg hm, if_neg hm']
      congr 1
      refine ih _ _ fun lf' h' => ?_
      simp only [List.mem_cons]
      exact or_congr Iff.rfl (h lf' (List.mem_cons_of_mem _ h'))

theorem mem_of_mem_dedupByModname {seen : List String} {l : List LuaFile}
    {lf : LuaFile} (h : lf ∈ dedupByModname seen l) : lf ∈ l := by
  induction l generalizing seen with
  | nil => simp [dedupByModname] at h
  | cons lf' rest ih =>
    by_cases hm : lf'.modname ∈ seen
    · simp only [dedupByModname, if_pos hm] at h
      exact List.mem_cons_of_mem _ (ih h)
    · simp only [dedupByModname, if_neg hm, List.mem_cons] at h
      rcases h with h | h
      · simp [h]
      · exact List.mem_cons_of_mem _ (ih h)

theorem mem_map_modname_dedupByModname (seen : List String) (l : List LuaFile)
    (m : String) :
    m ∈ (dedupByModname seen l).map (fun lf => lf.modname)
      ↔ (m ∈ l.map (fun lf => lf.modname) ∧ m ∉ seen) := by
  induction l generalizing seen with
  | nil => simp [dedupByModname]
  | cons lf rest ih =>
    by_cases hm : lf.modname ∈ seen
    · simp only [dedupByModname, if_pos hm, ih, List.map_cons, List.mem_cons]
      constructor
      · rintro ⟨h1, h2⟩
        exact ⟨Or.inr h1, h2⟩
      · rintro ⟨h1, h2⟩
        rcases h1 with h1 | h1
        · exact absurd (h1 ▸ hm) h2
        · exact ⟨h1, h2⟩
    · simp only [dedupByModname, if_neg hm, List.map_cons, List.mem_cons, ih]
      constructor
      · rintro (rfl | ⟨h1, h2⟩)
        · exact ⟨Or.inl rfl, hm⟩
        · exact ⟨Or.inr h1, fun c => h2 (Or.inr c)⟩
      · rintro ⟨h1, h2⟩
        rcases h1 with h1 | h1
        · exact Or.inl h1
        · by_cases hme : m = lf.modname
          · exact Or.inl hme
          · exact Or.inr ⟨h1, fun c => c.elim hme h2⟩

theorem dmGroup_add_lua_ne {d : DupliMap} {lua : LuaFile} {k : String}
    (h : lua.path.name ≠ k) : dmGroup (add_lua d lua) k = dmGroup d k := by
  cases hget : dmGet d lua.path.name with
  | none =>
    have hadd : add_lua d lua = dmAppend d lua.path.name lua := by
      unfold add_lua; rw [hget]
    rw [hadd]
    exact dmGroup_dmAppend_ne d lua (Ne.symm h)
  | some values =>
    have hadd0 : add_lua d lua
        = if lua.modname ∈ values.map (fun v => v.modname) then d
          else dmAppend d lua.path.name lua := by
      unfold add_lua; rw [hget]
    by_cases hmem : lua.modname ∈ values.map (fun v => v.modname)
    · rw [hadd0, if_pos hmem]
    · rw [hadd0, if_neg hmem]
      exact dmGroup_dmAppend_ne d lua (Ne.symm h)

theorem dmGroup_foldl_add_lua (l : List LuaFile) (d : DupliMap) (k : String) :
    dmGroup (l.foldl add_lua d) k
      = dmGroup d k
          ++ dedupByModname ((dmGroup d k).map (fun lf => lf.modname))
               (filesNamed l k) := by
  induction l generalizing d with
  | nil => simp [filesNamed, dedupByModname]
  | cons lua rest ih =>
    simp only [List.foldl_cons]
    rw [ih, filesNamed_cons]
    by_cases h : lua.path.name = k
    · rw [if_pos h]
      cases hget : dmGet d lua.path.name with
      | none =>
        have hg0 : dmGroup d k = [] := by rw [← h]; simp [dmGroup, hget]
        have hadd : add_lua d lua = dmAppend d lua.path.name lua := by
          unfold add_lua; rw [hget]
        rw [hadd, h, dmGroup_dmAppend_self, hg0]
        simp [dedupByModname]
      | some values =>
        have hgv : dmGroup d k = values := by rw [← h]; simp [dmGroup, hget]
        have hadd0 : add_lua d lua
            = if lua.modname ∈ values.map (fun v => v.modname) then d
              else dmAppend d lua.path.name lua := by
          unfold add_lua; rw [hget]
        by_cases hmem : lua.modname ∈ values.map (fun v => v.modname)
        · have hadd : add_lua d lua = d := by rw [hadd0, if_pos hmem]
          rw [hadd, hgv]
          congr 1
          simp [dedupByModname, hmem]
        · have hadd : add_lua d lua = dmAppend d lua.path.name lua := by
            rw [hadd0, if_neg hmem]
          rw [hadd, h, dmGroup_dmAppend_self, hgv]
          rw [show dedupByModname (values.map fun v => v.modname)
                (lua :: filesNamed rest k)
              = lua :: dedupByModname (lua.modname :: values.map fun v => v.modname)
                  (filesNamed rest k) from by simp [dedupByModname, hmem]]
          rw [List.map_append]
          rw [dedupByModname_congr
                (values.map (fun v => v.modname) ++ [lua].map (fun lf => lf.modname))
                (lua.modname :: values.map (fun v => v.modname))
                (filesNamed rest k)
                (fun lf _ => by
                  simp only [List.map_cons, List.map_nil, List.mem_append,
                    List.mem_cons, List.mem_singleton, List.not_mem_nil, or_false]
                  tauto)]
          simp

    · rw [if_neg h, dmGroup_add_lua_ne h]

theorem wf_nil : WF [] := ⟨List.nodup_nil, by simp⟩

theorem wf_add_lua {d : DupliMap} (hWF : WF d) (lua : LuaFile) :
    WF (add_lua d lua) := by
  cases hget : dmGet d lua.path.name with
  | none =>
    have hadd : add_lua d lua = dmAppend d lua.path.name lua := by
      unfold add_lua; rw [hget]
    rw [hadd]
    exact wf_dmAppend hWF _ _
  | some values =>
    have hadd0 : add_lua d lua
        = if lua.modname ∈ values.map (fun v => v.modname) then d
          else dmAppend d lua.path.name lua := by
      unfold add_lua; rw [hget]
    by_cases hmem : lua.modname ∈ values.map (fun v => v.modname)
    · rw [hadd0, if_pos hmem]
      exact hWF
    · rw [hadd0, if_neg hmem]
      exact wf_dmAppend hWF _ _

theorem wf_foldl_add_lua (l : List LuaFile) {d : DupliMap} (hWF : WF d) :
    WF (l.foldl add_lua d) := by
  induction l generalizing d with
  | nil => exact hWF
  | cons lua rest ih => exact ih (wf_add_lua hWF lua)

theorem wf_foldl_appendName (l : List LuaFile) {d : DupliMap} (hWF : WF d) :
    WF (l.foldl (fun d lua => dmAppend d lua.path.name lua) d) := by
  induction l generalizing d with
  | nil => exact hWF
  | cons lua rest ih => exact ih (wf_dmAppend hWF _ _)

theorem wf_vp_duplimap (vp nvp : List LuaFile) : WF (vp_duplimap vp nvp) :=
  wf_foldl_add_lua nvp (wf_foldl_appendName vp wf_nil)

theorem wf_nvp_duplimap (nvp : List LuaFile) : WF (nvp_duplimap nvp) :=
  wf_foldl_add_lua nvp wf_nil

theorem dmGroup_vp_duplimap (vp nvp : List LuaFile) (k : String) :
    dmGroup (vp_duplimap vp nvp) k = groupSpec vp nvp k := by
  unfold vp_duplimap groupSpec
  rw [dmGroup_foldl_add_lua, dmGroup_foldl_appendName]
  have h0 : dmGroup [] k = [] := rfl
  rw [h0]
  simp

theorem dmGroup_nvp_duplimap (nvp : List LuaFile) (k : String) :
    dmGroup (nvp_duplimap nvp) k = dedupByModname [] (filesNamed nvp k) := by
  unfold nvp_duplimap
  rw [dmGroup_foldl_add_lua]
  have h0 : dmGroup [] k = [] := rfl
  rw [h0]
  simp

theorem mem_find_vp_iff (vp nvp : List LuaFile) (k : String) (g : List LuaFile) :
    (k, g) ∈ find_vp_conflicts vp nvp
      ↔ dmGet (vp_duplimap vp nvp) k = some g
          ∧ (∃ lf ∈ g, lf ∈ vp) ∧ 3 ≤ g.length := by
  unfold find_vp_conflicts
  rw [List.mem_filter, dmGet_eq_some_iff (wf_vp_duplimap vp nvp).1]
  simp [List.any_eq_true, and_assoc, and_comm]

theorem mem_find_nvp_iff (nvp : List LuaFile) (k : String) (g : List LuaFile) :
    (k, g) ∈ find_not_vp_conflicts nvp
      ↔ dmGet (nvp_duplimap nvp) k = some g ∧ 2 ≤ g.length := by
  unfold find_not_vp_conflicts
  rw [List.mem_filter, dmGet_eq_some_iff (wf_nvp_duplimap nvp).1]
  simp [and_comm]

theorem nodup_map_modname_dedupByModname (seen : List String) (l : List LuaFile) :
    ((dedupByModname seen l).map (fun lf => lf.modname)).Nodup := by
  induction l generalizing seen with
  | nil => simp [dedupByModname]
  | cons lf rest ih =>
    by_cases hm : lf.modname ∈ seen
    · simp only [dedupByModname, if_pos hm]
      exact ih seen
    · simp only [dedupByModname, if_neg hm, List.map_cons, List.nodup_cons]
      constructor
      · intro hmem
        rw [mem_map_modname_dedupByModname] at hmem
        exact hmem.2 (List.mem_cons_self _ _)
      · exact ih (lf.modname :: seen)

theorem sort_out_luas_fst (mods : List Mod) :
    (sort_out_luas mods).1
      = ((((allLuas mods).dedup).filter (fun lf => is_voxpopuli lf.modname)).map
          (fun lf => LuaFile.mk lf.path lf.modname true)).dedup := rfl

theorem sort_out_luas_snd (mods : List Mod) :
    (sort_out_luas mods).2
      = ((allLuas mods).dedup).filter (fun lf => !is_voxpopuli lf.modname) := rfl

theorem mem_allLuas {mods : List Mod} {lf : LuaFile} :
    lf ∈ allLuas mods
      ↔ ∃ mod ∈ mods, ∃ file ∈ mod.lua_files, lf = LuaFile.mk file mod.name false := by
  simp only [allLuas, List.mem_flatten, List.mem_map]
  constructor
  · rintro ⟨l, ⟨mod, hmod, rfl⟩, hlf⟩
    rcases List.mem_map.1 hlf with ⟨file, hfile, rfl⟩
    exact ⟨mod, hmod, file, hfile, rfl⟩
  · rintro ⟨mod, hmod, file, hfile, rfl⟩
    exact ⟨_, ⟨mod, hmod, rfl⟩, List.mem_map_of_mem _ hfile⟩

theorem mem_vp_elim {mods : List Mod} {lf : LuaFile}
    (h : lf ∈ (sort_out_luas mods).1) :
    ∃ mod ∈ mods, ∃ file ∈ mod.lua_files,
      lf = LuaFile.mk file mod.name true ∧ is_voxpopuli mod.name = true := by
  rw [sort_out_luas_fst] at h
  rcases List.mem_map.1 (List.mem_dedup.1 h) with ⟨lf', hlf', rfl⟩
  have h1 := List.mem_filter.1 hlf'
  rcases mem_allLuas.1 (List.mem_dedup.1 h1.1) with ⟨mod, hmod, file, hfile, rfl⟩
  exact ⟨mod, hmod, file, hfile, rfl, h1.2⟩

theorem mem_nvp_elim {mods : List Mod} {lf : LuaFile}
    (h : lf ∈ (sort_out_luas mods).2) :
    ∃ mod ∈ mods, ∃ file ∈ mod.lua_files,
      lf = LuaFile.mk file mod.name false ∧ is_voxpopuli mod.name = false := by
  rw [sort_out_luas_snd] at h
  have h1 := List.mem_filter.1 h
  rcases mem_allLuas.1 (List.mem_dedup.1 h1.1) with ⟨mod, hmod, file, hfile, rfl⟩
  refine ⟨mod, hmod, file, hfile, rfl, ?_⟩
  simpa using h1.2

theorem is_vp_of_mem_vp {mods : List Mod} {lf : LuaFile}
    (h : lf ∈ (sort_out_luas mods).1) :
    lf.is_vp = true ∧ is_voxpopuli lf.modname = true := by
  rcases mem_vp_elim h with ⟨mod, -, file, -, rfl, hvox⟩
  exact ⟨rfl, hvox⟩

theorem is_vp_of_mem_nvp {mods : List Mod} {lf : LuaFile}
    (h : lf ∈ (sort_out_luas mods).2) :
    lf.is_vp = false ∧ is_voxpopuli lf.modname = false := by
  rcases mem_nvp_elim h with ⟨mod, -, file, -, rfl, hvox⟩
  exact ⟨rfl, hvox⟩

/-- A subdirectory of the scanned root: its path, the files found under it by
the recursive `os.walk`, and its immediate `iterdir()` entries. -/
structure SubDir where
  path : Path
  walkFiles : List Path
  entries : List Path
deriving DecidableEq, Repr

/-- The scanned root: its path, whether it is a directory, and its immediate
subdirectories. -/
structure RootDir where
  path : Path
  isDir : Bool
  subdirs : List SubDir
deriving DecidableEq, Repr

/-- The `.lua` files collected for one subdirectory: every walked file whose
extension, lower-cased, is `.lua`. -/
def modLuaFiles (d : SubDir) : List Path :=
  d.walkFiles.filter (fun p => strToLower p.suffix == ".lua")

/-- The first immediate entry whose extension, lower-cased, is `.modinfo`. -/
def findModinfo (d : SubDir) : Option Path :=
  d.entries.find? (fun p => strToLower p.suffix == ".modinfo")

/-- A single-quote character, written by code point. -/
def sq : String := String.mk [Char.ofNat 39]

/-- The error message raised for a subdirectory without a manifest. -/
def missingManifestMsg (d : SubDir) : String :=
  "Directory " ++ sq ++ d.path.render ++ sq ++ " does not contain a .modinfo file."

/-- The error message raised when the root is not a directory. -/
def notADirectoryMsg (root : RootDir) : String :=
  "Not a directory: " ++ sq ++ root.path.render ++ sq ++ "."

/-- The per-subdirectory body of the loop in `getmods`. -/
def getmod (d : SubDir) : Except String Mod :=
  match findModinfo d with
  | some modinfo => .ok ⟨modinfo, modLuaFiles d⟩
  | none => .error (missingManifestMsg d)

/-- The loop of `getmods`: stop at the first subdirectory without a manifest. -/
def getmodsAux : List SubDir → Except String (List Mod)
  | [] => .ok []
  | d :: rest =>
    match getmod d with
    | .error e => .error e
    | .ok m =>
      match getmodsAux rest with
      | .error e => .error e
      | .ok ms => .ok (m :: ms)

/-- Model of `getmods`: enumerate the mods under the root directory. -/
def getmods (root : RootDir) : Except String (List Mod) :=
  if root.isDir then getmodsAux root.subdirs else .error (notADirectoryMsg root)

/-- Rendering of a `LuaFile` for the printed report. -/
def renderLuaFile (lf : LuaFile) : String :=
  "LuaFile(path=" ++ lf.path.render ++ ", modname=" ++ lf.modname
    ++ ", is_vp=" ++ (if lf.is_vp then "True" else "False") ++ ")"

/-- Rendering of one conflict-map item for the printed report. -/
def renderItem (kv : String × List LuaFile) : String :=
  "(" ++ kv.1 ++ ", [" ++ String.intercalate ", " (kv.2.map renderLuaFile) ++ "])"

/-- Numbered mod-name lines (1-based). -/
def numberLines : Nat → List Mod → List String
  | _, [] => []
  | i, m :: rest => (toString i ++ ") " ++ m.name) :: numberLines (i + 1) rest

/-- Model of `sorted(d.items())`: conflict-map items sorted by key. -/
def sortByKey (d : DupliMap) : DupliMap :=
  d.mergeSort (fun a b => decide (a.1 < b.1) || a.1 == b.1)

/-- The lines printed by `print_conflicts` once enumeration has succeeded. -/
def reportLines (mods : List Mod) : List String :=
  let lua_files := (mods.map (fun mod => mod.lua_files)).flatten
  let pair := sort_out_luas mods
  let vpc := find_vp_conflicts pair.1 pair.2
  let nvpc := find_not_vp_conflicts pair.2
  ["Parsed " ++ toString lua_files.length ++ " .lua file(s) from "
      ++ toString mods.length ++ " mod(s):"]
    ++ numberLines 1 (mods.mergeSort (fun a b => decide (a.name < b.name) || a.name == b.name))
    ++ [""]
    ++ ["Duplicates overwriting VP .lua" ++ sq ++ "s:",
        "=================================", ""]
    ++ (sortByKey vpc).map renderItem
    ++ ["", "Other duplicates:", "=================", ""]
    ++ (sortByKey nvpc).map renderItem

/-- Model of `print_conflicts`: the full run — enumeration, classification, report.
The result is the list of printed lines; an enumeration failure yields the
error instead, with nothing printed. -/
def print_conflicts (root : RootDir) : Except String (List String) :=
  match getmods root with
  | .error e => .error e
  | .ok mods => .ok (reportLines mods)

theorem mem_filesNamed {l : List LuaFile} {k : String} {lf : LuaFile} :
    lf ∈ filesNamed l k ↔ lf ∈ l ∧ lf.path.name = k := by
  simp [filesNamed, List.mem_filter]

theorem dmGet_vp_duplimap_iff (vp nvp : List LuaFile) (k : String)
    (g : List LuaFile) :
    dmGet (vp_duplimap vp nvp) k = some g ↔ g = groupSpec vp nvp k ∧ g ≠ [] := by
  constructor
  · intro h
    exact ⟨(dmGroup_eq_of_dmGet _ _ h).symm.trans (dmGroup_vp_duplimap vp nvp k),
      dmGet_some_ne_nil (wf_vp_duplimap vp nvp) h⟩
  · rintro ⟨rfl, hne⟩
    cases hget : dmGet (vp_duplimap vp nvp) k with
    | none =>
      have h0 : dmGroup (vp_duplimap vp nvp) k = [] := by simp [dmGroup, hget]
      rw [dmGroup_vp_duplimap] at h0
      exact absurd h0 hne
    | some g' =>
      rw [(dmGroup_eq_of_dmGet _ _ hget).symm.trans (dmGroup_vp_duplimap vp nvp k)]

theorem dmGet_nvp_duplimap_iff (nvp : List LuaFile) (k : String)
    (g : List LuaFile) :
    dmGet (nvp_duplimap nvp) k = some g
      ↔ g = dedupByModname [] (filesNamed nvp k) ∧ g ≠ [] := by
  constructor
  · intro h
    exact ⟨(dmGroup_eq_of_dmGet _ _ h).symm.trans (dmGroup_nvp_duplimap nvp k),
      dmGet_some_ne_nil (wf_nvp_duplimap nvp) h⟩
  · rintro ⟨rfl, hne⟩
    cases hget : dmGet (nvp_duplimap nvp) k with
    | none =>
      have h0 : dmGroup (nvp_duplimap nvp) k = [] := by simp [dmGroup, hget]
      rw [dmGroup_nvp_duplimap] at h0
      exact absurd h0 hne
    | some g' =>
      rw [(dmGroup_eq_of_dmGet _ _ hget).symm.trans (dmGroup_nvp_duplimap nvp k)]

/-! Concrete package sets used as inputs for the scenario theorems. -/

def cpModinfo : Path := ⟨["root", "(1) Community Patch", "(1) Community Patch (v 100).modinfo"]⟩

def cpUi : Path := ⟨["root", "(1) Community Patch", "Lua", "ui.lua"]⟩

def modAModinfo : Path := ⟨["root", "modA", "modA (v 2).modinfo"]⟩

def modAUi : Path := ⟨["root", "modA", "ui.lua"]⟩

def modBModinfo : Path := ⟨["root", "modB", "modB (v 3).modinfo"]⟩

def modBUi : Path := ⟨["root", "modB", "ui.lua"]⟩

/-- Scenario A: a baseline mod and two other mods, all holding `ui.lua`. -/
def scenarioA : List Mod :=
  [⟨cpModinfo, [cpUi]⟩, ⟨modAModinfo, [modAUi]⟩, ⟨modBModinfo, [modBUi]⟩]

def cpUiLF : LuaFile := ⟨cpUi, "(1) Community Patch (v 100)", true⟩

def modAUiLF : LuaFile := ⟨modAUi, "modA (v 2)", false⟩

def modBUiLF : LuaFile := ⟨modBUi, "modB (v 3)", false⟩

def cpX1 : Path := ⟨["root", "(1) Community Patch", "A", "x.lua"]⟩

def cpX2 : Path := ⟨["root", "(1) Community Patch", "B", "x.lua"]⟩

def cpX3 : Path := ⟨["root", "(1) Community Patch", "C", "x.lua"]⟩

/-- A single baseline mod holding three physical files all named `x.lua`. -/
def tripleVP : List Mod := [⟨cpModinfo, [cpX1, cpX2, cpX3]⟩]

def cpX1LF : LuaFile := ⟨cpX1, "(1) Community Patch (v 100)", true⟩

def cpX2LF : LuaFile := ⟨cpX2, "(1) Community Patch (v 100)", true⟩

def cpX3LF : LuaFile := ⟨cpX3, "(1) Community Patch (v 100)", true⟩

def cpY : Path := ⟨["root", "(1) Community Patch", "y.lua"]⟩

def modAY : Path := ⟨["root", "modA", "y.lua"]⟩

/-- Scenario C: a baseline mod and one other mod sharing `y.lua`. -/
def scenarioC : List Mod := [⟨cpModinfo, [cpY]⟩, ⟨modAModinfo, [modAY]⟩]

def cpYLF : LuaFile := ⟨cpY, "(1) Community Patch (v 100)", true⟩

def modAYLF : LuaFile := ⟨modAY, "modA (v 2)", false⟩

/-- A single non-baseline mod holding one lua file. -/
def scenarioSolo : List Mod := [⟨modAModinfo, [modAUi]⟩]

/-- C1, counterexample: on Scenario A the script name `ui.lua` is a key of
both `find_vp_conflicts` and `find_not_vp_conflicts`, so the two outputs of
the classification are not disjoint. -/
theorem c1_counterexample :
    "ui.lua" ∈ dmKeys
        (find_vp_conflicts (sort_out_luas scenarioA).1 (sort_out_luas scenarioA).2)
    ∧ "ui.lua" ∈ dmKeys (find_not_vp_conflicts (sort_out_luas scenarioA).2) := by
  decide

/-- C1, amended: the two outputs need not be disjoint — `find_not_vp_conflicts`
never consults the baseline references.  What does hold: every group of the
certain-conflict output contains a baseline-flagged member, while every group
of the potential-conflict output consists exclusively of non-baseline members;
a script name owned by a baseline package and by at least two non-baseline
packages is reported by both. -/
theorem c1_amended (mods : List Mod) (k : String) (g : List LuaFile) :
    ((k, g) ∈ find_vp_conflicts (sort_out_luas mods).1 (sort_out_luas mods).2 →
        ∃ lf ∈ g, lf.is_vp = true)
    ∧ ((k, g) ∈ find_not_vp_conflicts (sort_out_luas mods).2 →
        ∀ lf ∈ g, lf.is_vp = false) := by
  constructor
  · intro h
    rcases (mem_find_vp_iff _ _ _ _).1 h with ⟨hget, ⟨lf, hlf, hlfvp⟩, hlen⟩
    exact ⟨lf, hlf, (is_vp_of_mem_vp hlfvp).1⟩
  · intro h
    rcases (mem_find_nvp_iff _ _ _).1 h with ⟨hget, hlen⟩
    intro lf hlf
    have hg : g = dedupByModname [] (filesNamed (sort_out_luas mods).2 k) :=
      ((dmGet_nvp_duplimap_iff _ _ _).1 hget).1
    rw [hg] at hlf
    have hmem : lf ∈ (sort_out_luas mods).2 :=
      (mem_filesNamed.1 (mem_of_mem_dedupByModname hlf)).1
    exact (is_vp_of_mem_nvp hmem).1

theorem c1_amended_witness :
    (∃ lf ∈ [cpUiLF, modAUiLF, modBUiLF], lf.is_vp = true)
    ∧ (∀ lf ∈ [modAUiLF, modBUiLF], lf.is_vp = false) := by
  constructor
  · exact (c1_amended scenarioA "ui.lua" [cpUiLF, modAUiLF, modBUiLF]).1 (by decide)
  · exact (c1_amended scenarioA "ui.lua" [modAUiLF, modBUiLF]).2 (by decide)

/-- C2, counterexample: a baseline mod holding three physical files named
`x.lua` contributes all three to the certain-conflict group of `x.lua` —
baseline references are appended without deduplication, so a group can hold
several members with the same owning package name. -/
theorem c2_counterexample :
    ("x.lua", [cpX1LF, cpX2LF, cpX3LF])
        ∈ find_vp_conflicts (sort_out_luas tripleVP).1 (sort_out_luas tripleVP).2
    ∧ cpX1LF.modname = cpX2LF.modname ∧ cpX1LF ≠ cpX2LF := by
  decide

/-- C2, amended: deduplication by owning package applies only to non-baseline
references.  In every certain-conflict group the non-baseline-flagged members
have pairwise distinct owning package names, and every potential-conflict group
has pairwise distinct owning package names throughout; a baseline package
holding several same-named physical files contributes each of them. -/
theorem c2_amended (mods : List Mod) (k : String) (g : List LuaFile) :
    ((k, g) ∈ find_vp_conflicts (sort_out_luas mods).1 (sort_out_luas mods).2 →
        ((g.filter (fun lf => lf.is_vp == false)).map (fun lf => lf.modname)).Nodup)
    ∧ ((k, g) ∈ find_not_vp_conflicts (sort_out_luas mods).2 →
        (g.map (fun lf => lf.modname)).Nodup) := by
  constructor
  · intro h
    rcases (mem_find_vp_iff _ _ _ _).1 h with ⟨hget, -, -⟩
    have hg : g = groupSpec (sort_out_luas mods).1 (sort_out_luas mods).2 k :=
      ((dmGet_vp_duplimap_iff _ _ _ _).1 hget).1
    rw [hg]
    unfold groupSpec
    rw [List.filter_append]
    have h1 : (filesNamed (sort_out_luas mods).1 k).filter
        (fun lf => lf.is_vp == false) = [] := by
      rw [List.filter_eq_nil_iff]
      intro lf hlf
      have := (is_vp_of_mem_vp (mem_filesNamed.1 hlf).1).1
      simp [this]
    have h2 : (dedupByModname
          ((filesNamed (sort_out_luas mods).1 k).map (fun lf => lf.modname))
          (filesNamed (sort_out_luas mods).2 k)).filter
        (fun lf => lf.is_vp == false)
        = dedupByModname
            ((filesNamed (sort_out_luas mods).1 k).map (fun lf => lf.modname))
            (filesNamed (sort_out_luas mods).2 k) := by
      rw [List.filter_eq_self]
      intro lf hlf
      have hmem : lf ∈ (sort_out_luas mods).2 :=
        (mem_filesNamed.1 (mem_of_mem_dedupByModname hlf)).1
      simp [(is_vp_of_mem_nvp hmem).1]
    rw [h1, h2, List.nil_append]
    exact nodup_map_modname_dedupByModname _ _
  · intro h
    rcases (mem_find_nvp_iff _ _ _).1 h with ⟨hget, -⟩
    rw [((dmGet_nvp_duplimap_iff _ _ _).1 hget).1]
    exact nodup_map_modname_dedupByModname _ _

theorem c2_amended_witness :
    ((([cpX1LF, cpX2LF, cpX3LF].filter (fun lf => lf.is_vp == false)).map
        (fun lf => lf.modname)).Nodup)
    ∧ (([modAUiLF, modBUiLF].map (fun lf => lf.modname)).Nodup) := by
  constructor
  · exact (c2_amended tripleVP "x.lua" [cpX1LF, cpX2LF, cpX3LF]).1 (by decide)
  · exact (c2_amended scenarioA "ui.lua" [modAUiLF, modBUiLF]).2 (by decide)

/-- C3, counterexample: on Scenario A the potential-conflict output is not
empty — it reports `ui.lua` for the two non-baseline mods. -/
theorem c3_counterexample :
    ¬ find_not_vp_conflicts (sort_out_luas scenarioA).2 = [] := by
  decide

/-- C3, amended: on Scenario A the certain-conflict output contains `ui.lua`
with exactly the three members (one baseline-flagged, two not), and the
potential-conflict output also contains `ui.lua`, with the two non-baseline
members (it is not empty). -/
theorem c3_amended :
    find_vp_conflicts (sort_out_luas scenarioA).1 (sort_out_luas scenarioA).2
        = [("ui.lua", [cpUiLF, modAUiLF, modBUiLF])]
    ∧ find_not_vp_conflicts (sort_out_luas scenarioA).2
        = [("ui.lua", [modAUiLF, modBUiLF])]
    ∧ cpUiLF.is_vp = true ∧ modAUiLF.is_vp = false ∧ modBUiLF.is_vp = false := by
  decide

/-- C4, counterexample: in `tripleVP` every script name occurs in exactly one
package, yet the certain-conflict output is not empty — the three same-named
physical files of a single baseline package pass the `≥ 3` threshold alone. -/
theorem c4_counterexample :
    (∀ m₁ ∈ tripleVP, ∀ m₂ ∈ tripleVP, ∀ f₁ ∈ m₁.lua_files, ∀ f₂ ∈ m₂.lua_files,
        f₁.name = f₂.name → m₁.name = m₂.name)
    ∧ ¬ find_vp_conflicts (sort_out_luas tripleVP).1 (sort_out_luas tripleVP).2 = [] := by
  decide

theorem dedupByModname_eq_nil {seen : List String} {l : List LuaFile}
    (h : ∀ lf ∈ l, lf.modname ∈ seen) : dedupByModname seen l = [] := by
  induction l with
  | nil => rfl
  | cons lf rest ih =>
    simp only [dedupByModname, if_pos (h lf (List.mem_cons_self _ _))]
    exact ih fun lf' h' => h lf' (List.mem_cons_of_mem _ h')

theorem length_dedupByModname_le_one {seen : List String} {l : List LuaFile}
    (h : ∀ a ∈ l, ∀ b ∈ l, a.modname = b.modname) :
    (dedupByModname seen l).length ≤ 1 := by
  induction l generalizing seen with
  | nil => simp [dedupByModname]
  | cons lf rest ih =>
    by_cases hm : lf.modname ∈ seen
    · simp only [dedupByModname, if_pos hm]
      exact ih fun a ha b hb =>
        h a (List.mem_cons_of_mem _ ha) b (List.mem_cons_of_mem _ hb)
    · simp only [dedupByModname, if_neg hm, List.length_cons]
      have h0 : dedupByModname (lf.modname :: seen) rest = [] :=
        dedupByModname_eq_nil fun lf' h' => by
          rw [h lf' (List.mem_cons_of_mem _ h') lf (List.mem_cons_self _ _)]
          exact List.mem_cons_self _ _
      rw [h0]
      simp

theorem name_eq_of_mem_groupSpec {vp nvp : List LuaFile} {k : String}
    {lf : LuaFile} (h : lf ∈ groupSpec vp nvp k) : lf.path.name = k := by
  unfold groupSpec at h
  rcases List.mem_append.1 h with h | h
  · exact (mem_filesNamed.1 h).2
  · exact (mem_filesNamed.1 (mem_of_mem_dedupByModname h)).2

/-- C4, amended: if every script file-name occurs in at most one package then
the potential-conflict output is empty, and the certain-conflict output is
empty too provided at most two enumerated baseline references share any one
script name.  (A baseline package holding three or more same-named physical
files produces a certain conflict on its own, as the counterexample shows.) -/
theorem c4_amended (mods : List Mod)
    (h1 : ∀ m₁ ∈ mods, ∀ m₂ ∈ mods, ∀ f₁ ∈ m₁.lua_files, ∀ f₂ ∈ m₂.lua_files,
        f₁.name = f₂.name → m₁.name = m₂.name) :
    find_not_vp_conflicts (sort_out_luas mods).2 = []
    ∧ ((∀ k, (filesNamed (sort_out_luas mods).1 k).length ≤ 2) →
        find_vp_conflicts (sort_out_luas mods).1 (sort_out_luas mods).2 = []) := by
  have hsame : ∀ lf₁ lf₂ : LuaFile,
      (lf₁ ∈ (sort_out_luas mods).1 ∨ lf₁ ∈ (sort_out_luas mods).2) →
      (lf₂ ∈ (sort_out_luas mods).1 ∨ lf₂ ∈ (sort_out_luas mods).2) →
      lf₁.path.name = lf₂.path.name → lf₁.modname = lf₂.modname := by
    intro lf₁ lf₂ hm₁ hm₂ hname
    have e₁ : ∃ mod ∈ mods, ∃ file ∈ mod.lua_files,
        lf₁.path = file ∧ lf₁.modname = mod.name := by
      rcases hm₁ with h | h
      · rcases mem_vp_elim h with ⟨mod, hmod, file, hfile, rfl, -⟩
        exact ⟨mod, hmod, file, hfile, rfl, rfl⟩
      · rcases mem_nvp_elim h with ⟨mod, hmod, file, hfile, rfl, -⟩
        exact ⟨mod, hmod, file, hfile, rfl, rfl⟩
    have e₂ : ∃ mod ∈ mods, ∃ file ∈ mod.lua_files,
        lf₂.path = file ∧ lf₂.modname = mod.name := by
      rcases hm₂ with h | h
      · rcases mem_vp_elim h with ⟨mod, hmod, file, hfile, rfl, -⟩
        exact ⟨mod, hmod, file, hfile, rfl, rfl⟩
      · rcases mem_nvp_elim h with ⟨mod, hmod, file, hfile, rfl, -⟩
        exact ⟨mod, hmod, file, hfile, rfl, rfl⟩
    rcases e₁ with ⟨mod₁, hmod₁, f₁, hf₁, hp₁, hn₁⟩
    rcases e₂ with ⟨mod₂, hmod₂, f₂, hf₂, hp₂, hn₂⟩
    rw [hn₁, hn₂]
    apply h1 mod₁ hmod₁ mod₂ hmod₂ f₁ hf₁ f₂ hf₂
    rw [← hp₁, ← hp₂]
    exact hname
  constructor
  · unfold find_not_vp_conflicts
    rw [List.filter_eq_nil_iff]
    rintro ⟨k, g⟩ hmem
    have hget : dmGet (nvp_duplimap (sort_out_luas mods).2) k = some g :=
      (dmGet_eq_some_iff (wf_nvp_duplimap _).1 _ _).2 hmem
    have hg := ((dmGet_nvp_duplimap_iff _ _ _).1 hget).1
    have hlen : g.length ≤ 1 := by
      rw [hg]
      apply length_dedupByModname_le_one
      intro a ha b hb
      exact hsame a b (Or.inr (mem_filesNamed.1 ha).1) (Or.inr (mem_filesNamed.1 hb).1)
        ((mem_filesNamed.1 ha).2.trans (mem_filesNamed.1 hb).2.symm)
    simp only [decide_eq_true_eq]
    omega
  · intro h2
    unfold find_vp_conflicts
    rw [List.filter_eq_nil_iff]
    rintro ⟨k, g⟩ hmem
    have hget : dmGet (vp_duplimap (sort_out_luas mods).1 (sort_out_luas mods).2) k
        = some g :=
      (dmGet_eq_some_iff (wf_vp_duplimap _ _).1 _ _).2 hmem
    have hg := ((dmGet_vp_duplimap_iff _ _ _ _).1 hget).1
    simp only [Bool.and_eq_true, List.any_eq_true, decide_eq_true_eq, not_and]
    rintro ⟨lf, hlf, hlfvp⟩
    have hnamek : lf.path.name = k := name_eq_of_mem_groupSpec (hg ▸ hlf)
    have hnvpnil : filesNamed (sort_out_luas mods).2 k = [] := by
      rw [List.eq_nil_iff_forall_not_mem]
      intro lfn hlfn
      have hfn := mem_filesNamed.1 hlfn
      have hmods : lfn.modname = lf.modname :=
        hsame lfn lf (Or.inr hfn.1) (Or.inl hlfvp) (hfn.2.trans hnamek.symm)
      have hvox₁ := (is_vp_of_mem_nvp hfn.1).2
      have hvox₂ := (is_vp_of_mem_vp hlfvp).2
      rw [hmods, hvox₂] at hvox₁
      exact Bool.noConfusion hvox₁
    have hgv : g = filesNamed (sort_out_luas mods).1 k := by
      rw [hg]
      unfold groupSpec
      rw [hnvpnil]
      simp [dedupByModname]
    intro hge
    have hb := h2 k
    rw [hgv] at hge
    omega

theorem c4_amended_witness :
    find_not_vp_conflicts (sort_out_luas scenarioSolo).2 = []
    ∧ find_vp_conflicts (sort_out_luas scenarioSolo).1 (sort_out_luas scenarioSolo).2
        = [] := by
  have h := c4_amended scenarioSolo (by decide)
  refine ⟨h.1, h.2 fun k => ?_⟩
  have hvp : (sort_out_luas scenarioSolo).1 = [] := by decide
  rw [hvp]
  simp [filesNamed]

/-- C5: a conflict group with a baseline-flagged member but fewer than three
members in total is reported by neither output — its name is not a key of the
certain-conflict map (it fails the `≥ 3` threshold) and not a key of the
potential-conflict map (at most one distinct non-baseline package contributes
to it). -/
theorem c5_thm (mods : List Mod) (k : String) (g : List LuaFile)
    (hget : dmGet (vp_duplimap (sort_out_luas mods).1 (sort_out_luas mods).2) k
        = some g)
    (hvp : ∃ lf ∈ g, lf.is_vp = true) (hlen : g.length < 3) :
    k ∉ dmKeys (find_vp_conflicts (sort_out_luas mods).1 (sort_out_luas mods).2)
    ∧ k ∉ dmKeys (find_not_vp_conflicts (sort_out_luas mods).2) := by
  have hg := ((dmGet_vp_duplimap_iff _ _ _ _).1 hget).1
  constructor
  · intro hk
    rcases (mem_dmKeys_iff _ _).1 hk with ⟨g', hmem⟩
    rcases (mem_find_vp_iff _ _ _ _).1 hmem with ⟨hget', -, hlen'⟩
    rw [hget] at hget'
    have hgg : g = g' := Option.some.inj hget'
    rw [← hgg] at hlen'
    omega
  · intro hk
    rcases (mem_dmKeys_iff _ _).1 hk with ⟨g', hmem⟩
    rcases (mem_find_nvp_iff _ _ _).1 hmem with ⟨hget', hlen'⟩
    have hg' := ((dmGet_nvp_duplimap_iff _ _ _).1 hget').1
    rcases hvp with ⟨lf, hlf, hlfvp⟩
    have hlfmem : lf ∈ filesNamed (sort_out_luas mods).1 k := by
      rw [hg] at hlf
      unfold groupSpec at hlf
      rcases List.mem_append.1 hlf with h | h
      · exact h
      · exfalso
        have hnvpmem : lf ∈ (sort_out_luas mods).2 :=
          (mem_filesNamed.1 (mem_of_mem_dedupByModname h)).1
        have hfalse := (is_vp_of_mem_nvp hnvpmem).1
        rw [hlfvp] at hfalse
        exact Bool.noConfusion hfalse
    have hVpos : 0 < (filesNamed (sort_out_luas mods).1 k).length :=
      List.length_pos.2 (List.ne_nil_of_mem hlfmem)
    have hEq : g' = dedupByModname
        ((filesNamed (sort_out_luas mods).1 k).map (fun x => x.modname))
        (filesNamed (sort_out_luas mods).2 k) := by
      rw [hg']
      refine (dedupByModname_congr _ [] _ fun lf' h' => ?_).symm
      constructor
      · intro hc
        exfalso
        rcases List.mem_map.1 hc with ⟨lfv, hlfv, hmodeq⟩
        have hv := (is_vp_of_mem_vp (mem_filesNamed.1 hlfv).1).2
        have hn := (is_vp_of_mem_nvp (mem_filesNamed.1 h').1).2
        rw [← hmodeq, hv] at hn
        exact Bool.noConfusion hn
      · intro hc
        exact absurd hc (List.not_mem_nil _)
    have hglen : g.length
        = (filesNamed (sort_out_luas mods).1 k).length + g'.length := by
      rw [hg]
      unfold groupSpec
      rw [List.length_append, hEq]
    omega

theorem c5_witness :
    "y.lua" ∉ dmKeys
        (find_vp_conflicts (sort_out_luas scenarioC).1 (sort_out_luas scenarioC).2)
    ∧ "y.lua" ∉ dmKeys (find_not_vp_conflicts (sort_out_luas scenarioC).2) :=
  c5_thm scenarioC "y.lua" [cpYLF, modAYLF] (by decide) (by decide) (by decide)

theorem toList_append (a b : String) : (a ++ b).toList = a.toList ++ b.toList := rfl

theorem getmodsAux_missing {l : List SubDir}
    (h : ∃ d ∈ l, findModinfo d = none) :
    ∃ d ∈ l, findModinfo d = none
      ∧ getmodsAux l = .error (missingManifestMsg d) := by
  induction l with
  | nil => simp at h
  | cons d rest ih =>
    cases hfm : findModinfo d with
    | none =>
      refine ⟨d, List.mem_cons_self _ _, hfm, ?_⟩
      simp [getmodsAux, getmod, hfm]
    | some mi =>
      have h' : ∃ d' ∈ rest, findModinfo d' = none := by
        rcases h with ⟨d', hd', hn⟩
        rcases List.mem_cons.1 hd' with rfl | hmem
        · rw [hfm] at hn
          exact absurd hn (by simp)
        · exact ⟨d', hmem, hn⟩
      rcases ih h' with ⟨d', hd', hn, herr⟩
      refine ⟨d', List.mem_cons_of_mem _ hd', hn, ?_⟩
      simp [getmodsAux, getmod, hfm, herr]

/-- C6: if the root is a directory and some immediate subdirectory holds no
manifest file, the whole run fails with an error naming such a subdirectory
(the first one, in listing order), and no report line is produced — the
result is the error alone, with the mods enumerated before the failure
discarded. -/
theorem c6_thm (root : RootDir) (hdir : root.isDir = true)
    (h : ∃ d ∈ root.subdirs, findModinfo d = none) :
    ∃ d ∈ root.subdirs, findModinfo d = none
      ∧ print_conflicts root = .error (missingManifestMsg d)
      ∧ (∃ s t, s ++ d.path.render.toList ++ t = (missingManifestMsg d).toList)
      ∧ ∀ lines, print_conflicts root ≠ .ok lines := by
  rcases getmodsAux_missing h with ⟨d, hd, hn, herr⟩
  have hg : getmods root = .error (missingManifestMsg d) := by
    unfold getmods
    rw [if_pos hdir]
    exact herr
  have hp : print_conflicts root = .error (missingManifestMsg d) := by
    unfold print_conflicts
    rw [hg]
  refine ⟨d, hd, hn, hp, ?_, ?_⟩
  · refine ⟨("Directory " ++ sq).toList,
      (sq ++ " does not contain a .modinfo file.").toList, ?_⟩
    simp [missingManifestMsg, toList_append, List.append_assoc]
  · intro lines hcon
    rw [hp] at hcon
    exact Except.noConfusion hcon

def okSub : SubDir := ⟨⟨["root", "modA"]⟩, [modAUi], [modAModinfo, modAUi]⟩

def badSub : SubDir :=
  ⟨⟨["root", "badmod"]⟩, [⟨["root", "badmod", "a.lua"]⟩], [⟨["root", "badmod", "a.lua"]⟩]⟩

/-- A root whose first subdirectory is a valid mod and whose second holds no
manifest. -/
def badRoot : RootDir := ⟨⟨["root"]⟩, true, [okSub, badSub]⟩

theorem c6_witness :
    ∃ d ∈ badRoot.subdirs, findModinfo d = none
      ∧ print_conflicts badRoot = .error (missingManifestMsg d)
      ∧ (∃ s t, s ++ d.path.render.toList ++ t = (missingManifestMsg d).toList)
      ∧ ∀ lines, print_conflicts badRoot ≠ .ok lines :=
  c6_thm badRoot (by decide) (by decide)

theorem isHeadOf_iff (pat l : List Char) :
    isHeadOf pat l = true ↔ ∃ t, pat ++ t = l := by
  induction pat generalizing l with
  | nil => simp [isHeadOf]
  | cons a as ih =>
    cases l with
    | nil => simp [isHeadOf]
    | cons b bs =>
      simp only [isHeadOf, Bool.and_eq_true, beq_iff_eq, ih, List.cons_append]
      constructor
      · rintro ⟨rfl, t, rfl⟩
        exact ⟨t, rfl⟩
      · rintro ⟨t, ht⟩
        injection ht with h1 h2
        exact ⟨h1, t, h2⟩

theorem containsSeq_iff (pat text : List Char) :
    containsSeq pat text = true ↔ ∃ s t, s ++ pat ++ t = text := by
  unfold containsSeq
  rw [List.any_eq_true]
  constructor
  · rintro ⟨i, hi, hhead⟩
    rcases (isHeadOf_iff _ _).1 hhead with ⟨t, ht⟩
    exact ⟨text.take i, t, by rw [List.append_assoc, ht, List.take_append_drop]⟩
  · rintro ⟨s, t, ht⟩
    have hlen : s.length + pat.length + t.length = text.length := by
      rw [← ht]
      simp [List.length_append]
      omega
    refine ⟨s.length, ?_, (isHeadOf_iff _ _).2 ⟨t, ?_⟩⟩
    · rw [List.mem_range]
      omega
    · rw [← ht, List.append_assoc, List.drop_left]

/-- C7: the baseline classifier returns `true` exactly when some entry of the
fixed ordered baseline list occurs as a contiguous substring of the package
name — containment of the baseline entry in the name, not string equality. -/
theorem c7_thm (modname : String) :
    is_voxpopuli modname = true
      ↔ ∃ vpname ∈ VP_MODNAMES, ∃ s t,
          s ++ vpname.toList ++ t = modname.toList := by
  unfold is_voxpopuli
  rw [List.any_eq_true]
  constructor
  · rintro ⟨vpname, hmem, hc⟩
    exact ⟨vpname, hmem, (containsSeq_iff _ _).1 hc⟩
  · rintro ⟨vpname, hmem, hst⟩
    exact ⟨vpname, hmem, (containsSeq_iff _ _).2 hst⟩

theorem filter_dedup {α : Type} [DecidableEq α] (l : List α) (p : α → Bool) :
    (l.dedup).filter p = (l.filter p).dedup := by
  induction l with
  | nil => simp
  | cons a l ih =>
    by_cases hm : a ∈ l
    · rw [List.dedup_cons_of_mem hm]
      by_cases hp : p a
      · rw [List.filter_cons_of_pos hp,
          List.dedup_cons_of_mem (List.mem_filter.2 ⟨hm, hp⟩), ih]
      · rw [List.filter_cons_of_neg (by simp [hp]), ih]
    · rw [List.dedup_cons_of_not_mem hm]
      by_cases hp : p a
      · rw [List.filter_cons_of_pos hp, List.filter_cons_of_pos hp,
          List.dedup_cons_of_not_mem (fun c => hm (List.mem_filter.1 c).1), ih]
      · rw [List.filter_cons_of_neg (by simp [hp]),
          List.filter_cons_of_neg (by simp [hp]), ih]

/-- The projection of the enumerated packages onto their non-baseline script
references, before set deduplication. -/
def nvpProj (mods : List Mod) : List LuaFile :=
  (allLuas mods).filter (fun lf => !is_voxpopuli lf.modname)

theorem sort_out_snd_eq (mods : List Mod) :
    (sort_out_luas mods).2 = (nvpProj mods).dedup := by
  rw [sort_out_luas_snd]
  exact filter_dedup _ _

/-- C9: the potential-conflict output depends only on the non-baseline script
references — two package sets that agree on their non-baseline references
yield identical `find_not_vp_conflicts` results, however their baseline
packages differ. -/
theorem c9_thm (mods₁ mods₂ : List Mod) (h : nvpProj mods₁ = nvpProj mods₂) :
    find_not_vp_conflicts (sort_out_luas mods₁).2
      = find_not_vp_conflicts (sort_out_luas mods₂).2 := by
  rw [sort_out_snd_eq, sort_out_snd_eq, h]

/-- Scenario A with the scripts of the baseline package replaced by a
different file: the non-baseline packages are unchanged. -/
def scenarioA2 : List Mod :=
  [⟨cpModinfo, [cpX1]⟩, ⟨modAModinfo, [modAUi]⟩, ⟨modBModinfo, [modBUi]⟩]

theorem c9_witness :
    find_not_vp_conflicts (sort_out_luas scenarioA).2
      = find_not_vp_conflicts (sort_out_luas scenarioA2).2 :=
  c9_thm scenarioA scenarioA2 (by decide)

/-- C10: conflict grouping keys on the exact final path component — every
member of a reported group (in either output) bears precisely the group's key
as its file name, so two files whose names differ only in letter case are
never grouped together; the enumeration filter, by contrast, admits a file
exactly when its extension lower-cases to `.lua`. -/
theorem c10_thm :
    (∀ vp nvp : List LuaFile, ∀ k : String, ∀ g : List LuaFile,
        (k, g) ∈ find_vp_conflicts vp nvp → ∀ lf ∈ g, lf.path.name = k)
    ∧ (∀ nvp : List LuaFile, ∀ k : String, ∀ g : List LuaFile,
        (k, g) ∈ find_not_vp_conflicts nvp → ∀ lf ∈ g, lf.path.name = k)
    ∧ (∀ d : SubDir, ∀ p ∈ d.walkFiles,
        (p ∈ modLuaFiles d ↔ strToLower p.suffix = ".lua")) := by
  refine ⟨?_, ?_, ?_⟩
  · intro vp nvp k g hmem lf hlf
    have hg := ((dmGet_vp_duplimap_iff _ _ _ _).1
      ((mem_find_vp_iff _ _ _ _).1 hmem).1).1
    exact name_eq_of_mem_groupSpec (hg ▸ hlf)
  · intro nvp k g hmem lf hlf
    have hg := ((dmGet_nvp_duplimap_iff _ _ _).1
      ((mem_find_nvp_iff _ _ _).1 hmem).1).1
    rw [hg] at hlf
    exact (mem_filesNamed.1 (mem_of_mem_dedupByModname hlf)).2
  · intro d p hp
    simp [modLuaFiles, List.mem_filter, hp]

def modUUI : Path := ⟨["root", "modU", "UI.LUA"]⟩

def subU : SubDir := ⟨⟨["root", "modU"]⟩, [modUUI], [modUUI]⟩

theorem c10_witness :
    modUUI ∈ modLuaFiles subU
    ∧ (∀ lf ∈ [cpUiLF, modAUiLF, modBUiLF], lf.path.name = "ui.lua") := by
  constructor
  · exact (c10_thm.2.2 subU modUUI (by decide)).2 (by decide)
  · exact c10_thm.1 (sort_out_luas scenarioA).1 (sort_out_luas scenarioA).2 "ui.lua"
      [cpUiLF, modAUiLF, modBUiLF] (by decide)

/-- The (script-name, owning-package) participants recorded in a conflict
map. -/
def participants (d : DupliMap) : List (String × String) :=
  d.flatMap (fun kv => kv.2.map (fun lf => (kv.1, lf.modname)))

theorem wf_filter {d : DupliMap} (hWF : WF d) (p : String × List LuaFile → Bool) :
    WF (d.filter p) := by
  constructor
  · exact List.Nodup.sublist (List.Sublist.map _ (List.filter_sublist d)) hWF.1
  · intro kv h
    exact hWF.2 kv (List.mem_filter.1 h).1

theorem mem_participants {d : DupliMap} (hWF : WF d) (k m : String) :
    (k, m) ∈ participants d
      ↔ ∃ g, dmGet d k = some g ∧ m ∈ g.map (fun lf => lf.modname) := by
  unfold participants
  rw [List.mem_flatMap]
  constructor
  · rintro ⟨kv, hkv, hmem⟩
    rcases List.mem_map.1 hmem with ⟨lf, hlf, heq⟩
    have h1 : kv.1 = k := congrArg Prod.fst heq
    have h2 : lf.modname = m := congrArg Prod.snd heq
    refine ⟨kv.2, ?_, ?_⟩
    · rw [← h1]
      exact (dmGet_eq_some_iff hWF.1 _ _).2 hkv
    · rw [List.mem_map]
      exact ⟨lf, hlf, h2⟩
  · rintro ⟨g, hget, hm⟩
    rcases List.mem_map.1 hm with ⟨lf, hlf, rfl⟩
    exact ⟨(k, g), (dmGet_eq_some_iff hWF.1 _ _).1 hget, List.mem_map_of_mem _ hlf⟩

theorem mem_participants_filter {d : DupliMap} (hWF : WF d)
    (p : String × List LuaFile → Bool) (k m : String) :
    (k, m) ∈ participants (d.filter p)
      ↔ ∃ g, dmGet d k = some g ∧ p (k, g) = true
          ∧ m ∈ g.map (fun lf => lf.modname) := by
  rw [mem_participants (wf_filter hWF p)]
  constructor
  · rintro ⟨g, hget, hm⟩
    have hmem := (dmGet_eq_some_iff (wf_filter hWF p).1 _ _).1 hget
    have h2 := List.mem_filter.1 hmem
    exact ⟨g, (dmGet_eq_some_iff hWF.1 _ _).2 h2.1, h2.2, hm⟩
  · rintro ⟨g, hget, hp, hm⟩
    refine ⟨g, (dmGet_eq_some_iff (wf_filter hWF p).1 _ _).2 ?_, hm⟩
    exact List.mem_filter.2 ⟨(dmGet_eq_some_iff hWF.1 _ _).1 hget, hp⟩

theorem mem_V_of_mem_spec_vp {mods : List Mod} {k : String} {lf : LuaFile}
    (hspec : lf ∈ groupSpec (sort_out_luas mods).1 (sort_out_luas mods).2 k)
    (hvp : lf ∈ (sort_out_luas mods).1) :
    lf ∈ filesNamed (sort_out_luas mods).1 k := by
  unfold groupSpec at hspec
  rcases List.mem_append.1 hspec with h | h
  · exact h
  · exfalso
    have hnvp : lf ∈ (sort_out_luas mods).2 :=
      (mem_filesNamed.1 (mem_of_mem_dedupByModname h)).1
    have hf := (is_vp_of_mem_nvp hnvp).1
    have ht := (is_vp_of_mem_vp hvp).1
    rw [ht] at hf
    exact Bool.noConfusion hf

theorem participants_find_vp (mods : List Mod) (k m : String) :
    (k, m) ∈ participants
        (find_vp_conflicts (sort_out_luas mods).1 (sort_out_luas mods).2)
      ↔ filesNamed (sort_out_luas mods).1 k ≠ []
          ∧ 3 ≤ (filesNamed (sort_out_luas mods).1 k).length
              + (dedupByModname
                  ((filesNamed (sort_out_luas mods).1 k).map (fun lf => lf.modname))
                  (filesNamed (sort_out_luas mods).2 k)).length
          ∧ (m ∈ (filesNamed (sort_out_luas mods).1 k).map (fun lf => lf.modname)
              ∨ (m ∈ (filesNamed (sort_out_luas mods).2 k).map (fun lf => lf.modname)
                  ∧ m ∉ (filesNamed (sort_out_luas mods).1 k).map
                      (fun lf => lf.modname))) := by
  unfold find_vp_conflicts
  rw [mem_participants_filter (wf_vp_duplimap _ _) _ k m]
  constructor
  · rintro ⟨g, hget, hpred, hm⟩
    obtain ⟨rfl, hne⟩ := (dmGet_vp_duplimap_iff _ _ _ _).1 hget
    simp only [Bool.and_eq_true, List.any_eq_true, decide_eq_true_eq] at hpred
    obtain ⟨⟨lf, hlf, hlfvp⟩, hlen3⟩ := hpred
    refine ⟨List.ne_nil_of_mem (mem_V_of_mem_spec_vp hlf hlfvp), ?_, ?_⟩
    · rw [groupSpec, List.length_append] at hlen3
      exact hlen3
    · rw [groupSpec, List.map_append, List.mem_append] at hm
      rcases hm with hm | hm
      · exact Or.inl hm
      · rw [mem_map_modname_dedupByModname] at hm
        exact Or.inr hm
  · rintro ⟨hVne, hlen, hm⟩
    obtain ⟨lfv, hlfv⟩ := List.exists_mem_of_ne_nil _ hVne
    refine ⟨groupSpec (sort_out_luas mods).1 (sort_out_luas mods).2 k,
      (dmGet_vp_duplimap_iff _ _ _ _).2 ⟨rfl, ?_⟩, ?_, ?_⟩
    · exact List.ne_nil_of_mem
        (List.mem_append_left _ hlfv)
    · simp only [Bool.and_eq_true, List.any_eq_true, decide_eq_true_eq]
      refine ⟨⟨lfv, List.mem_append_left _ hlfv, (mem_filesNamed.1 hlfv).1⟩, ?_⟩
      rw [groupSpec, List.length_append]
      exact hlen
    · rw [groupSpec, List.map_append, List.mem_append]
      rcases hm with hm | hm
      · exact Or.inl hm
      · exact Or.inr ((mem_map_modname_dedupByModname _ _ _).2 hm)

theorem participants_find_nvp (nvp : List LuaFile) (k m : String) :
    (k, m) ∈ participants (find_not_vp_conflicts nvp)
      ↔ 2 ≤ (dedupByModname [] (filesNamed nvp k)).length
          ∧ m ∈ (filesNamed nvp k).map (fun lf => lf.modname) := by
  unfold find_not_vp_conflicts
  rw [mem_participants_filter (wf_nvp_duplimap _) _ k m]
  constructor
  · rintro ⟨g, hget, hpred, hm⟩
    obtain ⟨rfl, hne⟩ := (dmGet_nvp_duplimap_iff _ _ _).1 hget
    simp only [decide_eq_true_eq] at hpred
    refine ⟨hpred, ?_⟩
    exact ((mem_map_modname_dedupByModname _ _ _).1 hm).1
  · rintro ⟨hlen, hm⟩
    refine ⟨dedupByModname [] (filesNamed nvp k),
      (dmGet_nvp_duplimap_iff _ _ _).2 ⟨rfl, ?_⟩, ?_, ?_⟩
    · intro hc
      rw [hc] at hlen
      simp at hlen
    · simp only [decide_eq_true_eq]
      exact hlen
    · exact (mem_map_modname_dedupByModname _ _ _).2 ⟨hm, List.not_mem_nil _⟩

theorem perm_modname_dedup {seen₁ seen₂ : List String} {l₁ l₂ : List LuaFile}
    (hs : ∀ x, x ∈ seen₁ ↔ x ∈ seen₂)
    (hl : ∀ x, x ∈ l₁.map (fun lf => lf.modname)
        ↔ x ∈ l₂.map (fun lf => lf.modname)) :
    ((dedupByModname seen₁ l₁).map (fun lf => lf.modname)).Perm
      ((dedupByModname seen₂ l₂).map (fun lf => lf.modname)) := by
  rw [List.perm_ext_iff_of_nodup (nodup_map_modname_dedupByModname _ _)
    (nodup_map_modname_dedupByModname _ _)]
  intro x
  rw [mem_map_modname_dedupByModname, mem_map_modname_dedupByModname]
  exact and_congr (hl x) (not_congr (hs x))

theorem length_dedup_eq {seen₁ seen₂ : List String} {l₁ l₂ : List LuaFile}
    (hs : ∀ x, x ∈ seen₁ ↔ x ∈ seen₂)
    (hl : ∀ x, x ∈ l₁.map (fun lf => lf.modname)
        ↔ x ∈ l₂.map (fun lf => lf.modname)) :
    (dedupByModname seen₁ l₁).length = (dedupByModname seen₂ l₂).length := by
  have h := (perm_modname_dedup hs hl).length_eq
  simpa using h

/-- C8: determinism of the classification up to the iteration order of the
intermediate unordered storage — if two runs see the same enumerated script
references (as a multiset, in any order), then both outputs have the same
(script-name, owning-package) participant sets. -/
theorem c8_thm (mods₁ mods₂ : List Mod)
    (h : (allLuas mods₁).Perm (allLuas mods₂)) :
    (∀ km : String × String,
        km ∈ participants
            (find_vp_conflicts (sort_out_luas mods₁).1 (sort_out_luas mods₁).2)
          ↔ km ∈ participants
              (find_vp_conflicts (sort_out_luas mods₂).1 (sort_out_luas mods₂).2))
    ∧ (∀ km : String × String,
        km ∈ participants (find_not_vp_conflicts (sort_out_luas mods₁).2)
          ↔ km ∈ participants (find_not_vp_conflicts (sort_out_luas mods₂).2)) := by
  have hvp : ((sort_out_luas mods₁).1).Perm ((sort_out_luas mods₂).1) := by
    rw [sort_out_luas_fst, sort_out_luas_fst]
    exact (List.Perm.map _ (List.Perm.filter _ h.dedup)).dedup
  have hnvp : ((sort_out_luas mods₁).2).Perm ((sort_out_luas mods₂).2) := by
    rw [sort_out_luas_snd, sort_out_luas_snd]
    exact List.Perm.filter _ h.dedup
  constructor
  · rintro ⟨k, m⟩
    have hV : (filesNamed (sort_out_luas mods₁).1 k).Perm
        (filesNamed (sort_out_luas mods₂).1 k) := List.Perm.filter _ hvp
    have hN : (filesNamed (sort_out_luas mods₁).2 k).Perm
        (filesNamed (sort_out_luas mods₂).2 k) := List.Perm.filter _ hnvp
    have hVm : ∀ x, x ∈ (filesNamed (sort_out_luas mods₁).1 k).map
          (fun lf => lf.modname)
        ↔ x ∈ (filesNamed (sort_out_luas mods₂).1 k).map (fun lf => lf.modname) :=
      fun x => (List.Perm.map _ hV).mem_iff
    have hNm : ∀ x, x ∈ (filesNamed (sort_out_luas mods₁).2 k).map
          (fun lf => lf.modname)
        ↔ x ∈ (filesNamed (sort_out_luas mods₂).2 k).map (fun lf => lf.modname) :=
      fun x => (List.Perm.map _ hN).mem_iff
    have hDlen := length_dedup_eq hVm hNm
    have hVnil : filesNamed (sort_out_luas mods₁).1 k = []
        ↔ filesNamed (sort_out_luas mods₂).1 k = [] := by
      rw [← List.length_eq_zero, ← List.length_eq_zero, hV.length_eq]
    rw [participants_find_vp mods₁ k m, participants_find_vp mods₂ k m,
      hV.length_eq, hDlen]
    exact and_congr (not_congr hVnil)
      (and_congr Iff.rfl
        (or_congr (hVm m) (and_congr (hNm m) (not_congr (hVm m)))))
  · rintro ⟨k, m⟩
    have hN : (filesNamed (sort_out_luas mods₁).2 k).Perm
        (filesNamed (sort_out_luas mods₂).2 k) := List.Perm.filter _ hnvp
    have hNm : ∀ x, x ∈ (filesNamed (sort_out_luas mods₁).2 k).map
          (fun lf => lf.modname)
        ↔ x ∈ (filesNamed (sort_out_luas mods₂).2 k).map (fun lf => lf.modname) :=
      fun x => (List.Perm.map _ hN).mem_iff
    have hDlen : (dedupByModname [] (filesNamed (sort_out_luas mods₁).2 k)).length
        = (dedupByModname [] (filesNamed (sort_out_luas mods₂).2 k)).length :=
      length_dedup_eq (fun x => Iff.rfl) hNm
    rw [participants_find_nvp _ k m, participants_find_nvp _ k m, hDlen]
    exact and_congr Iff.rfl (hNm m)

/-- Scenario A listed in the reverse order: the same package set, enumerated
differently. -/
def scenarioARev : List Mod :=
  [⟨modBModinfo, [modBUi]⟩, ⟨modAModinfo, [modAUi]⟩, ⟨cpModinfo, [cpUi]⟩]

theorem c8_witness :
    (("ui.lua", "modA (v 2)") ∈ participants
        (find_vp_conflicts (sort_out_luas scenarioA).1 (sort_out_luas scenarioA).2)
      ↔ ("ui.lua", "modA (v 2)") ∈ participants
          (find_vp_conflicts (sort_out_luas scenarioARev).1
            (sort_out_luas scenarioARev).2))
    ∧ (("ui.lua", "modA (v 2)") ∈ participants
        (find_not_vp_conflicts (sort_out_luas scenarioA).2)
      ↔ ("ui.lua", "modA (v 2)") ∈ participants
          (find_not_vp_conflicts (sort_out_luas scenarioARev).2)) :=
  ⟨(c8_thm scenarioA scenarioARev (by decide)).1 ("ui.lua", "modA (v 2)"),
   (c8_thm scenarioA scenarioARev (by decide)).2 ("ui.lua", "modA (v 2)")⟩

end Civ5
